import Mathlib

/-!
Verification of the batch commit protocol of a MySQL Singer target
(`target_mysql/sinks.py`): primary-key deduplication in
`bulk_insert_records`, value sanitization in `sanitize_entry`, the
staging-to-destination merge in `upsert`, staging-table naming in
`generate_temp_table_name` and `process_batch`, and the
hard/soft-delete state machine in `activate_version`.

The embedding is shallow: Python record values become a tagged union
`Value`; Python dicts become association lists with Python dict update
semantics; the SQL statements issued by `upsert` and `activate_version`
are given their set-based meaning over lists of rows, with SQL
three-valued equality on NULL modelled by `sqlEqV`.
-/

namespace TargetMysql

/-- A Python value as it appears in a Singer record: `None`, `bool`,
`int`, `str`, `decimal.Decimal` (carried as its decimal string, which is
exactly what `str()` of a `Decimal` produces), `dict`, or `list`. This is
the tagged union the spec describes for record values. -/
inductive Value where
  | vnull : Value
  | vbool (b : Bool) : Value
  | vint (n : Int) : Value
  | vstr (s : String) : Value
  | vdec (s : String) : Value
  | vdict (fields : List (String × Value)) : Value
  | vlist (items : List Value) : Value
deriving Repr

mutual

/-- Boolean equality on `Value` (structural). -/
def valueBeq : Value → Value → Bool
  | .vnull, .vnull => true
  | .vbool a, .vbool b => a == b
  | .vint a, .vint b => a == b
  | .vstr a, .vstr b => a == b
  | .vdec a, .vdec b => a == b
  | .vdict a, .vdict b => fieldsBeq a b
  | .vlist a, .vlist b => itemsBeq a b
  | _, _ => false

/-- Boolean equality on dict field lists. -/
def fieldsBeq : List (String × Value) → List (String × Value) → Bool
  | [], [] => true
  | (k, v) :: r, (k', v') :: r' => k == k' && valueBeq v v' && fieldsBeq r r'
  | _, _ => false

/-- Boolean equality on value lists. -/
def itemsBeq : List Value → List Value → Bool
  | [], [] => true
  | v :: r, v' :: r' => valueBeq v v' && itemsBeq r r'
  | _, _ => false

end

mutual

theorem valueBeq_iff : ∀ a b : Value, valueBeq a b = true ↔ a = b
  | .vnull, .vnull => by simp [valueBeq]
  | .vbool a, .vbool b => by simp [valueBeq]
  | .vint a, .vint b => by simp [valueBeq]
  | .vstr a, .vstr b => by simp [valueBeq]
  | .vdec a, .vdec b => by simp [valueBeq]
  | .vdict a, .vdict b => by
      rw [show valueBeq (.vdict a) (.vdict b) = fieldsBeq a b from rfl]
      rw [fieldsBeq_iff a b]; simp
  | .vlist a, .vlist b => by
      rw [show valueBeq (.vlist a) (.vlist b) = itemsBeq a b from rfl]
      rw [itemsBeq_iff a b]; simp
  | .vnull, .vbool _ => by simp [valueBeq]
  | .vnull, .vint _ => by simp [valueBeq]
  | .vnull, .vstr _ => by simp [valueBeq]
  | .vnull, .vdec _ => by simp [valueBeq]
  | .vnull, .vdict _ => by simp [valueBeq]
  | .vnull, .vlist _ => by simp [valueBeq]
  | .vbool _, .vnull => by simp [valueBeq]
  | .vbool _, .vint _ => by simp [valueBeq]
  | .vbool _, .vstr _ => by simp [valueBeq]
  | .vbool _, .vdec _ => by simp [valueBeq]
  | .vbool _, .vdict _ => by simp [valueBeq]
  | .vbool _, .vlist _ => by simp [valueBeq]
  | .vint _, .vnull => by simp [valueBeq]
  | .vint _, .vbool _ => by simp [valueBeq]
  | .vint _, .vstr _ => by simp [valueBeq]
  | .vint _, .vdec _ => by simp [valueBeq]
  | .vint _, .vdict _ => by simp [valueBeq]
  | .vint _, .vlist _ => by simp [valueBeq]
  | .vstr _, .vnull => by simp [valueBeq]
  | .vstr _, .vbool _ => by simp [valueBeq]
  | .vstr _, .vint _ => by simp [valueBeq]
  | .vstr _, .vdec _ => by simp [valueBeq]
  | .vstr _, .vdict _ => by simp [valueBeq]
  | .vstr _, .vlist _ => by simp [valueBeq]
  | .vdec _, .vnull => by simp [valueBeq]
  | .vdec _, .vbool _ => by simp [valueBeq]
  | .vdec _, .vint _ => by simp [valueBeq]
  | .vdec _, .vstr _ => by simp [valueBeq]
  | .vdec _, .vdict _ => by simp [valueBeq]
  | .vdec _, .vlist _ => by simp [valueBeq]
  | .vdict _, .vnull => by simp [valueBeq]
  | .vdict _, .vbool _ => by simp [valueBeq]
  | .vdict _, .vint _ => by simp [valueBeq]
  | .vdict _, .vstr _ => by simp [valueBeq]
  | .vdict _, .vdec _ => by simp [valueBeq]
  | .vdict _, .vlist _ => by simp [valueBeq]
  | .vlist _, .vnull => by simp [valueBeq]
  | .vlist _, .vbool _ => by simp [valueBeq]
  | .vlist _, .vint _ => by simp [valueBeq]
  | .vlist _, .vstr _ => by simp [valueBeq]
  | .vlist _, .vdec _ => by simp [valueBeq]
  | .vlist _, .vdict _ => by simp [valueBeq]

theorem fieldsBeq_iff : ∀ a b : List (String × Value), fieldsBeq a b = true ↔ a = b
  | [], [] => by simp [fieldsBeq]
  | (k, v) :: r, (k', v') :: r' => by
      rw [show fieldsBeq ((k, v) :: r) ((k', v') :: r') =
        (k == k' && valueBeq v v' && fieldsBeq r r') from rfl]
      rw [Bool.and_assoc, Bool.and_eq_true, Bool.and_eq_true,
        valueBeq_iff v v', fieldsBeq_iff r r']
      simp [and_assoc]
  | [], _ :: _ => by simp [fieldsBeq]
  | _ :: _, [] => by simp [fieldsBeq]

theorem itemsBeq_iff : ∀ a b : List Value, itemsBeq a b = true ↔ a = b
  | [], [] => by simp [itemsBeq]
  | v :: r, v' :: r' => by
      rw [show itemsBeq (v :: r) (v' :: r') = (valueBeq v v' && itemsBeq r r') from rfl]
      rw [Bool.and_eq_true, valueBeq_iff v v', itemsBeq_iff r r']
      simp
  | [], _ :: _ => by simp [itemsBeq]
  | _ :: _, [] => by simp [itemsBeq]

end

instance : DecidableEq Value := fun a b =>
  if h : valueBeq a b = true then isTrue ((valueBeq_iff a b).mp h)
  else isFalse (fun he => h ((valueBeq_iff a b).mpr he))

/-- The single-quote character, as a string. -/
def sq : String := String.singleton (Char.ofNat 39)

/-- Escape a character the way Python `repr` escapes it inside a
single-quoted string literal: backslash and the quote itself are
backslash-escaped. (Python additionally escapes control characters and
switches quote style for strings containing a single quote; none of the
strings handled by this development contain such characters, so those
refinements of `repr` are not modelled.) -/
def pyEscapeChar (c : Char) : String :=
  if c = Char.ofNat 39 then "\\" ++ sq
  else if c = '\\' then "\\\\"
  else String.singleton c

/-- Escape a string for a Python single-quoted `repr` literal. -/
def pyEscape (s : String) : String :=
  (s.toList.map pyEscapeChar).foldr (· ++ ·) ""

mutual

/-- Python `repr()` of a `Value`. Used by `str()` on containers, whose
elements are rendered with `repr`. -/
def pyRepr : Value → String
  | .vnull => "None"
  | .vbool b => if b then "True" else "False"
  | .vint n => toString n
  | .vstr s => sq ++ pyEscape s ++ sq
  | .vdec s => "Decimal(" ++ sq ++ s ++ sq ++ ")"
  | .vdict fs => "\x7b" ++ pyReprFields fs ++ "\x7d"
  | .vlist xs => "[" ++ pyReprItems xs ++ "]"

/-- Python `repr()` of a dict body: comma-separated `'key': value`. -/
def pyReprFields : List (String × Value) → String
  | [] => ""
  | [(k, v)] => sq ++ pyEscape k ++ sq ++ ": " ++ pyRepr v
  | (k, v) :: r => sq ++ pyEscape k ++ sq ++ ": " ++ pyRepr v ++ ", " ++ pyReprFields r

/-- Python `repr()` of a list body: comma-separated values. -/
def pyReprItems : List Value → String
  | [] => ""
  | [v] => pyRepr v
  | v :: r => pyRepr v ++ ", " ++ pyReprItems r

end

/-- Python `str()` of a `Value`: identity on `str`, the plain decimal
string on `Decimal`, and `repr` rendering on everything else (in Python,
`str` and `repr` agree on `None`, booleans, integers and containers). -/
def pyStr : Value → String
  | .vstr s => s
  | .vdec s => s
  | v => pyRepr v

/-- Python `str()` of a list of strings, e.g. the f-string rendering of
`primary_keys` in the missing-primary-key error message. -/
def pyStrList (keys : List String) : String :=
  "[" ++ pyReprItems (keys.map Value.vstr) ++ "]"

mutual

/-- `MySQLSink.sanitize_entry` (sinks.py:185-202): deep-replaces every
`Decimal` by its string form, recursing through dicts and lists, leaving
every other value unchanged. -/
def sanitize_entry : Value → Value
  | .vdict fs => .vdict (sanitizeFields fs)
  | .vlist xs => .vlist (sanitizeItems xs)
  | .vdec s => .vstr s
  | .vnull => .vnull
  | .vbool b => .vbool b
  | .vint n => .vint n
  | .vstr s => .vstr s

/-- The dict comprehension inside `sanitize_entry`. -/
def sanitizeFields : List (String × Value) → List (String × Value)
  | [] => []
  | (k, v) :: r => (k, sanitize_entry v) :: sanitizeFields r

/-- The list comprehension inside `sanitize_entry`. -/
def sanitizeItems : List Value → List Value
  | [] => []
  | v :: r => sanitize_entry v :: sanitizeItems r

end

mutual

/-- `true` iff a value contains no `Decimal` anywhere (the shape the
JSON serialization layer can represent directly). -/
def decimalFree : Value → Bool
  | .vdec _ => false
  | .vdict fs => decimalFreeFields fs
  | .vlist xs => decimalFreeItems xs
  | _ => true

/-- `decimalFree` on dict fields. -/
def decimalFreeFields : List (String × Value) → Bool
  | [] => true
  | (_, v) :: r => decimalFree v && decimalFreeFields r

/-- `decimalFree` on list items. -/
def decimalFreeItems : List Value → Bool
  | [] => true
  | v :: r => decimalFree v && decimalFreeItems r

end

/-- A Singer record / a table row: a Python dict from field name to
value, modelled as an insertion-ordered association list (Python dicts
preserve insertion order and have unique keys). -/
abbrev Record := List (String × Value)

/-- `record.get(k)` / row lookup: the first binding of `k`, as an
`Option`. -/
def recordGet (r : Record) (k : String) : Option Value := r.lookup k

/-- SQL row column access: a missing binding reads as SQL NULL, which is
also what Python's `record.get` (returning `None`) produces. -/
def rowGet (r : Record) (k : String) : Value := (r.lookup k).getD .vnull

/-- The keys of a record, in order. -/
def rowKeys (r : Record) : List String := r.map Prod.fst

/-- Python dict item assignment `m[k] = v` on an insertion-ordered dict:
replaces the value of an existing key in place, else appends the new
binding at the end. -/
def pyDictSet : List (String × α) → String → α → List (String × α)
  | [], k, v => [(k, v)]
  | (k', v') :: rest, k, v =>
      if k' = k then (k, v) :: rest else (k', v') :: pyDictSet rest k v

/-- A raised Python exception: its class name and its message. -/
structure PyError where
  excClass : String
  msg : String
deriving DecidableEq, Repr

/-- The exception raised by `bulk_insert_records` when a record lacks a
declared primary-key field (sinks.py:161-166): a `RuntimeError` whose
message interpolates the table name, the table's schema, and the
primary-key list (rendered as Python renders a list of strings). -/
def pkError (tableName tableSchema : String) (primaryKeys : List String) : PyError :=
  { excClass := "RuntimeError"
    msg := "Primary key not found in record. full_table_name: " ++ tableName ++
      ". schema: " ++ tableSchema ++ ".  primary_keys: " ++ pyStrList primaryKeys ++ "." }

/-- `"".join([str(record[key]) for key in primary_keys])`
(sinks.py:157-159): the composite dedup key. `none` models the
`KeyError` raised when some `key` is absent from the record (a key bound
to `None` does not raise; `str(None)` is `"None"`). -/
def primary_key_value (primaryKeys : List String) (record : Record) : Option String :=
  match primaryKeys with
  | [] => some ""
  | k :: rest =>
      match recordGet record k, primary_key_value rest record with
      | some v, some s => some (pyStr v ++ s)
      | _, _ => none

/-- The projection of a record onto the declared columns in the
non-append branch (sinks.py:154-156): `insert_record[c] = record.get(c)`
for each declared column `c`, missing fields becoming `None`; no value
normalization happens in this branch. -/
def projectRecord (columns : List String) (record : Record) : Record :=
  columns.map (fun c => (c, (recordGet record c).getD .vnull))

/-- One projected value in the append-only branch (sinks.py:170-180):
values that are a dict, list or `Decimal` go through `sanitize_entry`,
every other value is stored unchanged. -/
def appendProjectValue (v : Value) : Value :=
  match v with
  | .vdict _ => sanitize_entry v
  | .vlist _ => sanitize_entry v
  | .vdec _ => sanitize_entry v
  | _ => v

/-- The projection of a record onto the declared columns in the
append-only branch (sinks.py:169-181). -/
def appendProject (columns : List String) (record : Record) : Record :=
  columns.map (fun c => (c, appendProjectValue ((recordGet record c).getD .vnull)))

/-- The dedup loop of `bulk_insert_records` (sinks.py:150-167): fold the
records in arrival order into the Python dict `insert_records`, keyed by
the concatenated string forms of the primary-key values; a record
missing a primary-key field aborts the whole batch with the
`RuntimeError` of sinks.py:161-166. -/
def buildInsertRecords (columns primaryKeys : List String)
    (tableName tableSchema : String) :
    List Record → List (String × Record) → Except PyError (List (String × Record))
  | [], m => .ok m
  | r :: rest, m =>
      match primary_key_value primaryKeys r with
      | none => .error (pkError tableName tableSchema primaryKeys)
      | some key =>
          buildInsertRecords columns primaryKeys tableName tableSchema rest
            (pyDictSet m key (projectRecord columns r))

/-- `MySQLSink.bulk_insert_records` (sinks.py:117-183), as the
computation of `data_to_insert`, the row list handed to the single
`INSERT IGNORE` execution at sinks.py:182. An `.error` result models the
raised exception, in which case the insert statement is never executed
and no row of the batch reaches the staging table. -/
def bulk_insert_records (append_only : Bool) (columns primaryKeys : List String)
    (tableName tableSchema : String) (records : List Record) :
    Except PyError (List Record) :=
  if append_only = false then
    (buildInsertRecords columns primaryKeys tableName tableSchema records []).map
      (fun m => m.map Prod.snd)
  else
    .ok (records.map (appendProject columns))

/-- The composite key of a record with `""` default; only used under the
hypothesis that every primary-key field is present. -/
def keyStrD (primaryKeys : List String) (r : Record) : String :=
  (primary_key_value primaryKeys r).getD ""

/-- Follows the spec's words: the distinct composite keys of a batch, in
order of first occurrence. -/
def distinctFirst (ks : List String) : List String :=
  ks.foldl (fun acc k => if k ∈ acc then acc else acc ++ [k]) []

/-- Follows the spec's words: the last record in arrival order whose
composite key is `k` ("within each group, the last record wins"). -/
def lastWithKey (primaryKeys : List String) (records : List Record) (k : String) :
    Option Record :=
  (records.filter (fun r => keyStrD primaryKeys r == k)).getLast?

/-- Follows the spec's words: one output row per distinct composite key,
equal to the projection of the last record with that key. -/
def dedupOutput (columns primaryKeys : List String) (records : List Record) :
    List Record :=
  (distinctFirst (records.map (keyStrD primaryKeys))).map
    (fun k => projectRecord columns ((lastWithKey primaryKeys records k).getD []))

/-- SQL three-valued equality `a = b` as a WHERE/ON filter: NULL compares
unequal to everything, including NULL itself. -/
def sqlEqV (a b : Value) : Bool :=
  if a = Value.vnull then false
  else if b = Value.vnull then false
  else decide (a = b)

/-- The join predicate of `upsert` (sinks.py:233-239): the conjunction of
`from_table.k = to_table.k` over the join keys. -/
def rowKeyMatches (joinKeys : List String) (srow drow : Record) : Bool :=
  joinKeys.all (fun k => sqlEqV (rowGet srow k) (rowGet drow k))

/-- The primary-key tuple of a row. -/
def keyTuple (joinKeys : List String) (r : Record) : List Value :=
  joinKeys.map (rowGet r)

/-- The insert-new SELECT of `upsert` (sinks.py:241-256): staging LEFT
OUTER JOIN destination on the key predicate, keeping the rows where the
destination-side key columns are NULL. A staging row with at least one
sqlEq-match contributes only join rows whose destination keys are
non-NULL (so none survive the WHERE); a staging row with no match
contributes exactly one NULL-padded row that survives. Hence: the
staging rows with no matching destination row, each once. -/
def insertNewRows (joinKeys : List String) (staging dest : List Record) : List Record :=
  staging.filter (fun srow => ! dest.any (fun drow => rowKeyMatches joinKeys srow drow))

/-- The SET clause of the UPDATE in `upsert` (sinks.py:259-266) applied
to one destination row: every declared schema column (primary keys
included) is overwritten with the matching staging row's value; columns
outside `schema["properties"]` are untouched. -/
def updateRow (schemaProps : List String) (srow drow : Record) : Record :=
  drow.map (fun p => (p.1, if p.1 ∈ schemaProps then rowGet srow p.1 else p.2))

/-- The effect of the correlated UPDATE of `upsert` (sinks.py:258-267)
on one destination row: if some staging row matches it on the join keys,
overwrite from that staging row (`find?` picks the first match; the
merge assumes at most one staging row per key tuple, under which it is
the only one), otherwise leave the row alone. -/
def updStep (joinKeys schemaProps : List String) (staging : List Record)
    (drow : Record) : Record :=
  match staging.find? (fun srow => rowKeyMatches joinKeys srow drow) with
  | some srow => updateRow schemaProps srow drow
  | none => drow

/-- The correlated UPDATE of `upsert` (sinks.py:258-267), applied to the
whole destination table. -/
def updateExisting (joinKeys schemaProps : List String) (staging dest : List Record) :
    List Record :=
  dest.map (updStep joinKeys schemaProps staging)

/-- `MySQLSink.upsert` (sinks.py:204-267) as a function on table
contents (lists of rows). Append-only mode is the plain
`INSERT INTO dest SELECT * FROM staging`; otherwise the insert-new
statement executes first and the update statement then runs against the
post-insert destination table. -/
def upsert (append_only : Bool) (joinKeys schemaProps : List String)
    (staging dest : List Record) : List Record :=
  if append_only = true then
    dest ++ staging
  else
    updateExisting joinKeys schemaProps staging
      (dest ++ insertNewRows joinKeys staging dest)

/-- A destination-table row as `activate_version` sees it: an opaque
payload plus the version column and the soft-delete timestamp column
(both nullable). -/
structure VRow where
  payload : String
  version : Option Int
  deletedAt : Option Int
deriving DecidableEq, Repr

/-- The destination-database state `activate_version` acts on: whether
the stream's table exists, which of the two metadata columns exist, and
the table's rows. -/
structure ActState where
  tableExists : Bool
  hasVersionCol : Bool
  hasSoftDeleteCol : Bool
  rows : List VRow
deriving DecidableEq, Repr

/-- One DDL or DML statement issued by `activate_version`. -/
inductive SqlEffect where
  | addVersionColumn : SqlEffect
  | addSoftDeleteColumn : SqlEffect
  | deleteDml : SqlEffect
  | updateDml : SqlEffect
deriving DecidableEq, Repr

/-- The row filter of the hard-delete DELETE (sinks.py:376-381):
`version <= new_version OR version IS NULL`. -/
def hardDeleteCond (newVersion : Int) (r : VRow) : Bool :=
  match r.version with
  | some v => decide (v ≤ newVersion)
  | none => true

/-- The row filter of the soft-delete UPDATE (sinks.py:394-399). The SQL
text is `version < :version OR version IS NULL AND deleted_at IS NULL`;
SQL gives AND precedence over OR, so the filter the database evaluates is
`version < :version OR (version IS NULL AND deleted_at IS NULL)`. -/
def softDeleteCond (newVersion : Int) (r : VRow) : Bool :=
  (match r.version with
   | some v => decide (v < newVersion)
   | none => false)
  || (r.version == none && r.deletedAt == none)

/-- `MySQLSink.activate_version` (sinks.py:342-405) as a transition on
`ActState`, returning the new state and the DDL/DML statements executed,
in order. A freshly added column reads NULL in every existing row. -/
def activate_version (hard_delete : Bool) (new_version : Int) (deleted_at : Int)
    (s : ActState) : ActState × List SqlEffect :=
  if s.tableExists = false then (s, [])
  else
    let s1 : ActState × List SqlEffect :=
      if s.hasVersionCol then (s, [])
      else ({ s with
                hasVersionCol := true
                rows := s.rows.map (fun r => { r with version := none }) },
            [.addVersionColumn])
    if hard_delete = true then
      ({ s1.1 with rows := s1.1.rows.filter (fun r => ! hardDeleteCond new_version r) },
       s1.2 ++ [.deleteDml])
    else
      let s2 : ActState × List SqlEffect :=
        if s1.1.hasSoftDeleteCol then s1
        else ({ s1.1 with
                  hasSoftDeleteCol := true
                  rows := s1.1.rows.map (fun r => { r with deletedAt := none }) },
              s1.2 ++ [.addSoftDeleteColumn])
      ({ s2.1 with rows := s2.1.rows.map (fun r =>
          if softDeleteCond new_version r then { r with deletedAt := some deleted_at } else r) },
       s2.2 ++ [.updateDml])

/-- One hexadecimal digit, lowercase. -/
def hexDigitChar (n : Nat) : Char :=
  if n < 10 then Char.ofNat (48 + n) else Char.ofNat (87 + n)

/-- The low `len` hex digits of `n`, big-endian, zero-padded. -/
def hexPad : Nat → Nat → String
  | 0, _ => ""
  | len + 1, n => hexPad len (n / 16) ++ String.singleton (hexDigitChar (n % 16))

/-- Python `str(uuid.UUID(int=u))`: the 128-bit value as 32 lowercase hex
digits grouped 8-4-4-4-12 with hyphens. -/
def uuid_str (u : Nat) : String :=
  let h := hexPad 32 u
  h.take 8 ++ "-" ++ (h.drop 8).take 4 ++ "-" ++ (h.drop 12).take 4 ++ "-" ++
    (h.drop 16).take 4 ++ "-" ++ h.drop 20

/-- `MySQLSink.generate_temp_table_name` (sinks.py:109-115):
`str(uuid.uuid4()).replace('-','_')`, applied to the 128-bit value `u`
drawn by `uuid.uuid4()`. -/
def generate_temp_table_name (u : Nat) : String :=
  (uuid_str u).map (fun c => if c = '-' then '_' else c)

/-- The sink state relevant to staging-table naming:
`self.temp_table_name`, assigned once in `__init__` (sinks.py:38). -/
structure SinkState where
  temp_table_name : String
deriving DecidableEq, Repr

/-- `MySQLSink.__init__` (sinks.py:29-38): draws one random token and
stores `generate_temp_table_name` of it for the sink's lifetime. -/
def sink_init (token : Nat) : SinkState :=
  { temp_table_name := generate_temp_table_name token }

/-- The staging-table name `process_batch` uses for its
`prepare_table(..., as_temp_table=True)` call (sinks.py:86-91): always
the stored `self.temp_table_name`. -/
def process_batch_staging_name (sink : SinkState) : String :=
  sink.temp_table_name

/-- A sink's lifecycle over `numBatches` sequential batches, given the
stream of 128-bit random tokens `uuid.uuid4()` would return on successive
calls: `__init__` consumes the first token; each `process_batch` then
creates its staging table under the name it uses. Returns the staging
table name of each batch in order. -/
def batchStagingNames (tokens : Nat → Nat) (numBatches : Nat) : List String :=
  let sink := sink_init (tokens 0)
  (List.range numBatches).map (fun _ => process_batch_staging_name sink)

theorem range_map_const (c : α) (n : Nat) :
    (List.range n).map (fun _ => c) = List.replicate n c := by
  induction n with
  | zero => rfl
  | succ m ih =>
      rw [List.range_succ, List.map_append, ih, List.replicate_succ']
      rfl

/-- C7: activate-version on a stream whose destination table does not
exist returns without error, issues no DDL and no DML, and leaves the
database state unchanged (sinks.py:348-351). -/
theorem activate_version_missing_table_noop (hard_delete : Bool) (w t : Int)
    (s : ActState) (hex : s.tableExists = false) :
    activate_version hard_delete w t s = (s, []) := by
  unfold activate_version
  rw [hex]
  simp

theorem activate_version_missing_table_noop_witness :
    (ActState.tableExists ⟨false, false, false, [⟨"r", some 1, none⟩]⟩ = false) ∧
    activate_version true 5 9 ⟨false, false, false, [⟨"r", some 1, none⟩]⟩ =
      (⟨false, false, false, [⟨"r", some 1, none⟩]⟩, []) :=
  ⟨rfl, activate_version_missing_table_noop true 5 9 _ rfl⟩

/-- C6: in hard-delete mode, on an existing table with an existing
version column, activate-version keeps exactly the rows whose version is
non-null and strictly above the watermark — equivalently it deletes
exactly the rows whose version is `<=` the watermark or null — and it
executes exactly one statement, the DELETE (sinks.py:374-382). -/
theorem hard_delete_deletes_stale_rows (w t : Int) (s : ActState)
    (hex : s.tableExists = true) (hvc : s.hasVersionCol = true) :
    (activate_version true w t s).1.rows =
      s.rows.filter (fun r => match r.version with
        | some v => decide (w < v)
        | none => false) ∧
    (activate_version true w t s).2 = [.deleteDml] := by
  unfold activate_version
  rw [hex, hvc]
  simp only [Bool.true_eq_false, if_false, if_true, ite_true, ite_false]
  refine ⟨?_, rfl⟩
  apply List.filter_congr
  intro r _
  cases hv : r.version with
  | none => simp [hardDeleteCond, hv]
  | some v =>
      simp only [hardDeleteCond, hv, ← decide_not, decide_eq_decide]
      omega

theorem hard_delete_deletes_stale_rows_witness :
    (ActState.tableExists ⟨true, true, false,
        [⟨"p1", some 1, none⟩, ⟨"p2", some 2, none⟩,
         ⟨"p3", some 3, none⟩, ⟨"p4", none, none⟩]⟩ = true) ∧
    (ActState.hasVersionCol ⟨true, true, false,
        [⟨"p1", some 1, none⟩, ⟨"p2", some 2, none⟩,
         ⟨"p3", some 3, none⟩, ⟨"p4", none, none⟩]⟩ = true) ∧
    (activate_version true 2 99 ⟨true, true, false,
        [⟨"p1", some 1, none⟩, ⟨"p2", some 2, none⟩,
         ⟨"p3", some 3, none⟩, ⟨"p4", none, none⟩]⟩).1.rows =
      [⟨"p3", some 3, none⟩] ∧
    (activate_version true 2 99 ⟨true, true, false,
        [⟨"p1", some 1, none⟩, ⟨"p2", some 2, none⟩,
         ⟨"p3", some 3, none⟩, ⟨"p4", none, none⟩]⟩).2 = [.deleteDml] := by
  refine ⟨rfl, rfl, ?_, ?_⟩
  · rw [(hard_delete_deletes_stale_rows 2 99 _ rfl rfl).1]
    rfl
  · exact (hard_delete_deletes_stale_rows 2 99 _ rfl rfl).2

/-- C1: refuted on the code — the soft-delete UPDATE's WHERE clause is
`version < :version OR version IS NULL AND deleted_at IS NULL`, and SQL
precedence groups it as `v < w OR (v IS NULL AND deleted_at IS NULL)`,
so a row whose version is below the watermark has its deletion timestamp
refreshed even when it is already set: with watermark 2 and now = 5, the
row (version 1, deleted_at already 0) ends with deleted_at = 5, not 0.
The spec's intended guard (deletion timestamp currently unset) is
dropped for the version-below-watermark disjunct. -/
theorem soft_delete_refreshes_set_timestamp :
    (activate_version false 2 5
      { tableExists := true, hasVersionCol := true, hasSoftDeleteCol := true,
        rows := [⟨"r1", some 1, some 0⟩] }).1.rows =
      [⟨"r1", some 1, some 5⟩] := by
  rfl

/-- C8: refuted on the code — `generate_temp_table_name` is called once,
in `__init__`, and `process_batch` reuses the stored
`self.temp_table_name` for every batch, so two staging tables created by
the same sink instance for different batches carry the same name, not
distinct ones: with the token stream 0, 1, 2, ... both batches of a
two-batch run use the name generated from token 0. -/
theorem staging_name_reused_across_batches :
    batchStagingNames (fun i => i) 2 =
      [generate_temp_table_name 0, generate_temp_table_name 0] ∧
    (batchStagingNames (fun i => i) 2).get? 0 =
      (batchStagingNames (fun i => i) 2).get? 1 := by
  exact ⟨rfl, rfl⟩

/-- C8 (amended): the staging-table name is produced by a single call to
the random-token generator at sink initialization, and every batch of
that sink reuses that one name: the staging names of an n-batch run are
n copies of `generate_temp_table_name` applied to the first token. -/
theorem staging_name_generated_once_per_sink (tokens : Nat → Nat) (n : Nat) :
    batchStagingNames tokens n =
      List.replicate n (generate_temp_table_name (tokens 0)) := by
  unfold batchStagingNames process_batch_staging_name sink_init
  exact range_map_const _ n

theorem lookup_map_pair (f : String → β) (cols : List String) (c : String) :
    (cols.map (fun k => (k, f k))).lookup c = if c ∈ cols then some (f c) else none := by
  induction cols with
  | nil => simp
  | cons k rest ih =>
      simp only [List.map_cons, List.lookup]
      by_cases hc : c = k
      · subst hc
        simp
      · have hbeq : (c == k) = false := by simpa using hc
        rw [hbeq]
        simp only [ih, List.mem_cons]
        by_cases hm : c ∈ rest <;> simp [hm, hc]

mutual

theorem sanitize_entry_decimalFree : ∀ v : Value, decimalFree (sanitize_entry v) = true
  | .vnull => rfl
  | .vbool _ => rfl
  | .vint _ => rfl
  | .vstr _ => rfl
  | .vdec _ => rfl
  | .vdict fs => by
      rw [show sanitize_entry (.vdict fs) = .vdict (sanitizeFields fs) from rfl]
      rw [show decimalFree (.vdict (sanitizeFields fs)) =
        decimalFreeFields (sanitizeFields fs) from rfl]
      exact sanitizeFields_decimalFree fs
  | .vlist xs => by
      rw [show sanitize_entry (.vlist xs) = .vlist (sanitizeItems xs) from rfl]
      rw [show decimalFree (.vlist (sanitizeItems xs)) =
        decimalFreeItems (sanitizeItems xs) from rfl]
      exact sanitizeItems_decimalFree xs

theorem sanitizeFields_decimalFree :
    ∀ fs : List (String × Value), decimalFreeFields (sanitizeFields fs) = true
  | [] => rfl
  | (k, v) :: r => by
      rw [show sanitizeFields ((k, v) :: r) =
        (k, sanitize_entry v) :: sanitizeFields r from rfl]
      rw [show decimalFreeFields ((k, sanitize_entry v) :: sanitizeFields r) =
        (decimalFree (sanitize_entry v) && decimalFreeFields (sanitizeFields r)) from rfl]
      rw [sanitize_entry_decimalFree v, sanitizeFields_decimalFree r]
      rfl

theorem sanitizeItems_decimalFree :
    ∀ xs : List Value, decimalFreeItems (sanitizeItems xs) = true
  | [] => rfl
  | v :: r => by
      rw [show sanitizeItems (v :: r) = sanitize_entry v :: sanitizeItems r from rfl]
      rw [show decimalFreeItems (sanitize_entry v :: sanitizeItems r) =
        (decimalFree (sanitize_entry v) && decimalFreeItems (sanitizeItems r)) from rfl]
      rw [sanitize_entry_decimalFree v, sanitizeItems_decimalFree r]
      rfl

end

mutual

theorem sanitize_entry_eq_self : ∀ v : Value, decimalFree v = true → sanitize_entry v = v
  | .vnull, _ => rfl
  | .vbool _, _ => rfl
  | .vint _, _ => rfl
  | .vstr _, _ => rfl
  | .vdec _, h => by simp [decimalFree] at h
  | .vdict fs, h => by
      rw [show sanitize_entry (.vdict fs) = .vdict (sanitizeFields fs) from rfl]
      rw [sanitizeFields_eq_self fs (by simpa [decimalFree] using h)]
  | .vlist xs, h => by
      rw [show sanitize_entry (.vlist xs) = .vlist (sanitizeItems xs) from rfl]
      rw [sanitizeItems_eq_self xs (by simpa [decimalFree] using h)]

theorem sanitizeFields_eq_self :
    ∀ fs : List (String × Value), decimalFreeFields fs = true → sanitizeFields fs = fs
  | [], _ => rfl
  | (k, v) :: r, h => by
      rw [show decimalFreeFields ((k, v) :: r) =
        (decimalFree v && decimalFreeFields r) from rfl] at h
      rw [Bool.and_eq_true] at h
      rw [show sanitizeFields ((k, v) :: r) =
        (k, sanitize_entry v) :: sanitizeFields r from rfl]
      rw [sanitize_entry_eq_self v h.1, sanitizeFields_eq_self r h.2]

theorem sanitizeItems_eq_self :
    ∀ xs : List Value, decimalFreeItems xs = true → sanitizeItems xs = xs
  | [], _ => rfl
  | v :: r, h => by
      rw [show decimalFreeItems (v :: r) = (decimalFree v && decimalFreeItems r) from rfl] at h
      rw [Bool.and_eq_true] at h
      rw [show sanitizeItems (v :: r) = sanitize_entry v :: sanitizeItems r from rfl]
      rw [sanitize_entry_eq_self v h.1, sanitizeItems_eq_self r h.2]

end

/-- C9: in append-only mode the prepared output has exactly one record
per input record, in arrival order, each projected onto exactly the
declared columns with missing fields becoming null; dicts, lists and
decimals are deep-normalized (decimals become their decimal strings,
containers are normalized recursively, so the output contains no
decimals), and every decimal-free value is passed through unchanged
(sinks.py:168-181, 185-202). -/
theorem append_only_passthrough (cols pks : List String) (t sch : String)
    (records : List Record) :
    bulk_insert_records true cols pks t sch records =
      .ok (records.map (appendProject cols)) ∧
    (records.map (appendProject cols)).length = records.length ∧
    (∀ r : Record, rowKeys (appendProject cols r) = cols) ∧
    (∀ r : Record, ∀ c : String,
      (appendProject cols r).lookup c =
        if c ∈ cols then some (appendProjectValue ((recordGet r c).getD .vnull))
        else none) ∧
    (∀ d, appendProjectValue (.vdec d) = .vstr d) ∧
    appendProjectValue .vnull = .vnull ∧
    (∀ b, appendProjectValue (.vbool b) = .vbool b) ∧
    (∀ n, appendProjectValue (.vint n) = .vint n) ∧
    (∀ s', appendProjectValue (.vstr s') = .vstr s') ∧
    (∀ fs, appendProjectValue (.vdict fs) = .vdict (sanitizeFields fs)) ∧
    (∀ xs, appendProjectValue (.vlist xs) = .vlist (sanitizeItems xs)) ∧
    (∀ v, decimalFree (sanitize_entry v) = true) ∧
    (∀ v, decimalFree v = true → sanitize_entry v = v) := by
  refine ⟨rfl, List.length_map _ _, ?_, ?_, fun d => rfl, rfl, fun b => rfl,
    fun n => rfl, fun s' => rfl, fun fs => rfl, fun xs => rfl,
    sanitize_entry_decimalFree, sanitize_entry_eq_self⟩
  · intro r
    unfold rowKeys appendProject
    rw [List.map_map]
    have hcomp : (Prod.fst ∘ fun c => (c, appendProjectValue ((recordGet r c).getD Value.vnull))) =
        fun c : String => c := rfl
    rw [hcomp, List.map_id']
  · intro r c
    exact lookup_map_pair (fun k => appendProjectValue ((recordGet r k).getD .vnull)) cols c

/-- `sub` occurs as a contiguous substring of `s`. -/
def strContains (s sub : String) : Prop := ∃ a b, s = a ++ sub ++ b

theorem primary_key_value_isSome (r : Record) : ∀ pks : List String,
    (primary_key_value pks r).isSome = true ↔
      ∀ k ∈ pks, (recordGet r k).isSome = true := by
  intro pks
  induction pks with
  | nil => simp [primary_key_value]
  | cons k rest ih =>
      cases hk : recordGet r k with
      | none =>
          simp only [primary_key_value, hk]
          constructor
          · intro h
            simp at h
          · intro h
            have := h k (List.mem_cons_self k rest)
            rw [hk] at this
            simp at this
      | some v =>
          cases hrest : primary_key_value rest r with
          | none =>
              simp only [primary_key_value, hk, hrest]
              constructor
              · intro h
                simp at h
              · intro h
                have : (primary_key_value rest r).isSome = true :=
                  ih.mpr (fun k' hk' => h k' (List.mem_cons_of_mem k hk'))
                rw [hrest] at this
                simp at this
          | some s' =>
              simp only [primary_key_value, hk, hrest]
              constructor
              · intro _ k' hk'
                rcases List.mem_cons.mp hk' with h1 | h1
                · subst h1
                  rw [hk]
                  rfl
                · have : (primary_key_value rest r).isSome = true := by
                    rw [hrest]
                    rfl
                  exact (ih.mp this) k' h1
              · intro _
                rfl

theorem buildInsertRecords_error (cols pks : List String) (t sch : String) :
    ∀ (records : List Record) (m : List (String × Record)),
    (∃ r ∈ records, primary_key_value pks r = none) →
    buildInsertRecords cols pks t sch records m = .error (pkError t sch pks) := by
  intro records
  induction records with
  | nil =>
      intro m h
      rcases h with ⟨r, hr, _⟩
      simp at hr
  | cons r0 rest ih =>
      intro m h
      cases h0 : primary_key_value pks r0 with
      | none => simp [buildInsertRecords, h0]
      | some key =>
          rcases h with ⟨r, hr, hnone⟩
          rcases List.mem_cons.mp hr with h1 | h1
          · subst h1
            rw [h0] at hnone
            exact absurd hnone (by simp)
          · simp only [buildInsertRecords, h0]
            exact ih _ ⟨r, h1, hnone⟩

/-- C5: refuted on the code — on a record lacking its declared
primary-key field, `bulk_insert_records` raises a plain `RuntimeError`
(sinks.py:166), not an exception class named `MissingPrimaryKeyError`;
no such class exists anywhere in the code base. -/
theorem missing_primary_key_wrong_exception_class :
    bulk_insert_records false ["id", "v"] ["id"] "tbl" "sch" [[("v", .vint 3)]] =
      .error (pkError "tbl" "sch" ["id"]) ∧
    (pkError "tbl" "sch" ["id"]).excClass = "RuntimeError" ∧
    (pkError "tbl" "sch" ["id"]).excClass ≠ "MissingPrimaryKeyError" := by
  refine ⟨rfl, rfl, by decide⟩

/-- C5 (amended): in non-append-only mode, if any record of the batch
lacks a value for a declared primary-key field, `bulk_insert_records`
fails by raising a `RuntimeError` whose message contains the table name,
the table's schema and the primary-key list, and the batch's insert
statement is never executed (an `.error` result means control leaves the
function before the `execute` at sinks.py:182, so no rows of the batch
are inserted). -/
theorem missing_primary_key_raises (cols pks : List String) (t sch : String)
    (records : List Record)
    (hmiss : ∃ r ∈ records, ∃ k ∈ pks, recordGet r k = none) :
    bulk_insert_records false cols pks t sch records = .error (pkError t sch pks) ∧
    (pkError t sch pks).excClass = "RuntimeError" ∧
    strContains (pkError t sch pks).msg t ∧
    strContains (pkError t sch pks).msg sch ∧
    strContains (pkError t sch pks).msg (pyStrList pks) := by
  refine ⟨?_, rfl, ?_, ?_, ?_⟩
  · rcases hmiss with ⟨r, hr, k, hk, hnone⟩
    have hpkv : primary_key_value pks r = none := by
      cases hpk : primary_key_value pks r with
      | none => rfl
      | some s' =>
          have : ∀ k' ∈ pks, (recordGet r k').isSome = true :=
            (primary_key_value_isSome r pks).mp (by rw [hpk]; rfl)
          have := this k hk
          rw [hnone] at this
          simp at this
    unfold bulk_insert_records
    rw [if_pos rfl, buildInsertRecords_error cols pks t sch records [] ⟨r, hr, hpkv⟩]
    rfl
  · exact ⟨"Primary key not found in record. full_table_name: ",
      ". schema: " ++ sch ++ ".  primary_keys: " ++ pyStrList pks ++ ".",
      by simp [pkError, String.append_assoc]⟩
  · exact ⟨"Primary key not found in record. full_table_name: " ++ t ++ ". schema: ",
      ".  primary_keys: " ++ pyStrList pks ++ ".",
      by simp [pkError, String.append_assoc]⟩
  · exact ⟨"Primary key not found in record. full_table_name: " ++ t ++ ". schema: " ++
        sch ++ ".  primary_keys: ", ".",
      by simp [pkError, String.append_assoc]⟩

theorem missing_primary_key_raises_witness :
    (∃ r ∈ [[("v", Value.vint 3)]], ∃ k ∈ ["id"], recordGet r k = none) ∧
    bulk_insert_records false ["id", "v"] ["id"] "tbl" "sch" [[("v", .vint 3)]] =
      .error (pkError "tbl" "sch" ["id"]) ∧
    strContains (pkError "tbl" "sch" ["id"]).msg "tbl" :=
  ⟨⟨[("v", Value.vint 3)], by simp, "id", by simp, rfl⟩,
   (missing_primary_key_raises ["id", "v"] ["id"] "tbl" "sch" [[("v", .vint 3)]]
     ⟨[("v", Value.vint 3)], by simp, "id", by simp, rfl⟩).1,
   (missing_primary_key_raises ["id", "v"] ["id"] "tbl" "sch" [[("v", .vint 3)]]
     ⟨[("v", Value.vint 3)], by simp, "id", by simp, rfl⟩).2.2.1⟩

theorem pyDictSet_not_mem (m : List (String × α)) (k : String) (v : α)
    (h : k ∉ m.map Prod.fst) : pyDictSet m k v = m ++ [(k, v)] := by
  induction m with
  | nil => rfl
  | cons p rest ih =>
      obtain ⟨k', v'⟩ := p
      simp only [List.map_cons, List.mem_cons] at h
      push_neg at h
      simp only [pyDictSet, if_neg (Ne.symm h.1)]
      rw [ih h.2]
      rfl

theorem pyDictSet_map_form (ks : List String) (f : String → α) (k : String) (v : α)
    (hnd : ks.Nodup) (hmem : k ∈ ks) :
    pyDictSet (ks.map (fun k' => (k', f k'))) k v =
      ks.map (fun k' => (k', if k' = k then v else f k')) := by
  induction ks with
  | nil => simp at hmem
  | cons k0 rest ih =>
      rcases List.mem_cons.mp hmem with h0 | h0
      · subst h0
        simp only [List.map_cons, pyDictSet, if_pos rfl]
        have hrest : ∀ k' ∈ rest, (k', if k' = k then v else f k') = (k', f k') := by
          intro k' hk'
          have : k' ≠ k := by
            intro he
            subst he
            exact (List.nodup_cons.mp hnd).1 hk'
          simp [this]
        rw [List.map_congr_left hrest]
        simp
      · have hne : k0 ≠ k := by
          intro he
          subst he
          exact (List.nodup_cons.mp hnd).1 h0
        simp only [List.map_cons, pyDictSet, if_neg hne]
        rw [ih (List.nodup_cons.mp hnd).2 h0]

theorem mem_foldl_distinct (ks : List String) :
    ∀ (acc : List String) (x : String),
      x ∈ ks.foldl (fun acc k => if k ∈ acc then acc else acc ++ [k]) acc ↔
        x ∈ acc ∨ x ∈ ks := by
  induction ks with
  | nil => simp
  | cons k rest ih =>
      intro acc x
      simp only [List.foldl_cons]
      rw [ih]
      by_cases hk : k ∈ acc
      · rw [if_pos hk]
        constructor
        · rintro (h | h)
          · exact Or.inl h
          · exact Or.inr (List.mem_cons_of_mem k h)
        · rintro (h | h)
          · exact Or.inl h
          · rcases List.mem_cons.mp h with h1 | h1
            · subst h1; exact Or.inl hk
            · exact Or.inr h1
      · rw [if_neg hk]
        simp only [List.mem_append, List.mem_singleton, List.mem_cons]
        tauto

theorem mem_distinctFirst (ks : List String) (x : String) :
    x ∈ distinctFirst ks ↔ x ∈ ks := by
  unfold distinctFirst
  rw [mem_foldl_distinct]
  simp

theorem nodup_foldl_distinct (ks : List String) :
    ∀ acc : List String, acc.Nodup →
      (ks.foldl (fun acc k => if k ∈ acc then acc else acc ++ [k]) acc).Nodup := by
  induction ks with
  | nil => intro acc h; exact h
  | cons k rest ih =>
      intro acc h
      simp only [List.foldl_cons]
      by_cases hk : k ∈ acc
      · rw [if_pos hk]; exact ih acc h
      · rw [if_neg hk]
        refine ih _ ?_
        simp [List.nodup_append, h, hk]

theorem nodup_distinctFirst (ks : List String) : (distinctFirst ks).Nodup :=
  nodup_foldl_distinct ks [] List.nodup_nil

theorem distinctFirst_concat (ks : List String) (k : String) :
    distinctFirst (ks ++ [k]) =
      if k ∈ distinctFirst ks then distinctFirst ks else distinctFirst ks ++ [k] := by
  unfold distinctFirst
  rw [List.foldl_append]
  rfl

theorem lastWithKey_concat (pks : List String) (records : List Record) (r : Record)
    (k : String) :
    lastWithKey pks (records ++ [r]) k =
      if keyStrD pks r = k then some r else lastWithKey pks records k := by
  unfold lastWithKey
  rw [List.filter_append]
  by_cases h : keyStrD pks r = k
  · rw [if_pos h]
    have : List.filter (fun r' => keyStrD pks r' == k) [r] = [r] := by
      simp [List.filter, h]
    rw [this, List.getLast?_concat]
  · rw [if_neg h]
    have hbeq : (keyStrD pks r == k) = false := beq_eq_false_iff_ne.mpr h
    have : List.filter (fun r' => keyStrD pks r' == k) [r] = [] := by
      simp [List.filter, hbeq]
    rw [this, List.append_nil]

/-- The dedup loop on an error-free batch, as a fold of Python dict
assignments. -/
def buildOk (cols pks : List String) (records : List Record)
    (m : List (String × Record)) : List (String × Record) :=
  records.foldl (fun acc r => pyDictSet acc (keyStrD pks r) (projectRecord cols r)) m

theorem buildInsertRecords_eq_ok (cols pks : List String) (t sch : String) :
    ∀ (records : List Record) (m : List (String × Record)),
    (∀ r ∈ records, (primary_key_value pks r).isSome = true) →
    buildInsertRecords cols pks t sch records m = .ok (buildOk cols pks records m) := by
  intro records
  induction records with
  | nil => intro m _; rfl
  | cons r0 rest ih =>
      intro m h
      have h0 := h r0 (List.mem_cons_self r0 rest)
      cases hpk : primary_key_value pks r0 with
      | none =>
          rw [hpk] at h0
          simp at h0
      | some key =>
          simp only [buildInsertRecords, hpk]
          have hks : keyStrD pks r0 = key := by
            unfold keyStrD
            rw [hpk]
            rfl
          rw [show buildOk cols pks (r0 :: rest) m =
            buildOk cols pks rest
              (pyDictSet m (keyStrD pks r0) (projectRecord cols r0)) from rfl]
          rw [hks]
          exact ih _ (fun r hr => h r (List.mem_cons_of_mem r0 hr))

theorem buildOk_char (cols pks : List String) : ∀ records : List Record,
    buildOk cols pks records [] =
      (distinctFirst (records.map (keyStrD pks))).map
        (fun k => (k, projectRecord cols ((lastWithKey pks records k).getD []))) := by
  intro records
  induction records using List.reverseRecOn with
  | nil => rfl
  | append_singleton rs r ih =>
      have hL : buildOk cols pks (rs ++ [r]) [] =
          pyDictSet (buildOk cols pks rs []) (keyStrD pks r) (projectRecord cols r) := by
        unfold buildOk
        rw [List.foldl_append]
        rfl
      rw [hL, ih]
      rw [show (rs ++ [r]).map (keyStrD pks) =
        rs.map (keyStrD pks) ++ [keyStrD pks r] from by simp]
      rw [distinctFirst_concat]
      by_cases hmem : keyStrD pks r ∈ distinctFirst (rs.map (keyStrD pks))
      · rw [if_pos hmem]
        rw [pyDictSet_map_form _ _ _ _ (nodup_distinctFirst _) hmem]
        apply List.map_congr_left
        intro k _
        rw [lastWithKey_concat]
        by_cases hkk : k = keyStrD pks r
        · rw [if_pos hkk, if_pos hkk.symm]
          simp
        · rw [if_neg hkk, if_neg (fun he => hkk he.symm)]
      · rw [if_neg hmem]
        have hkeys : ((distinctFirst (rs.map (keyStrD pks))).map
            (fun k => (k, projectRecord cols ((lastWithKey pks rs k).getD [])))).map
              Prod.fst = distinctFirst (rs.map (keyStrD pks)) := by
          rw [List.map_map]
          exact List.map_id' _
        rw [pyDictSet_not_mem _ _ _ (by rw [hkeys]; exact hmem)]
        rw [List.map_append]
        congr 1
        · apply List.map_congr_left
          intro k hk
          rw [lastWithKey_concat]
          have : k ≠ keyStrD pks r := by
            intro he
            subst he
            exact hmem hk
          rw [if_neg (fun he => this he.symm)]
        · rw [show ([keyStrD pks r].map (fun k =>
            (k, projectRecord cols ((lastWithKey pks (rs ++ [r]) k).getD [])))) =
            [(keyStrD pks r,
              projectRecord cols ((lastWithKey pks (rs ++ [r]) (keyStrD pks r)).getD []))]
            from rfl]
          rw [lastWithKey_concat, if_pos rfl]
          rfl

theorem bulk_insert_nonappend_char (cols pks : List String) (t sch : String)
    (records : List Record)
    (hall : ∀ r ∈ records, (primary_key_value pks r).isSome = true) :
    bulk_insert_records false cols pks t sch records =
      .ok (dedupOutput cols pks records) := by
  unfold bulk_insert_records
  rw [if_pos rfl, buildInsertRecords_eq_ok cols pks t sch records [] hall, buildOk_char]
  unfold dedupOutput
  rw [show ∀ X : List (String × Record),
    Except.map (fun m : List (String × Record) => m.map Prod.snd)
      (Except.ok (ε := PyError) X) = Except.ok (X.map Prod.snd) from fun X => rfl]
  rw [List.map_map]
  rfl

/-- C2: refuted on the code — the composite dedup key is the plain
concatenation of the string forms of the primary-key values, so two
records with distinct primary-key tuples can be collapsed into one
output record: with primary keys `[a, b]`, the records
`(a=x, b=yz, c=1)` and `(a=xy, b=z, c=2)` have different key tuples but
both concatenate to `xyz`, and the prepared output is the single
projection of the second (later) record. -/
theorem distinct_tuples_collapsed :
    bulk_insert_records false ["a", "b", "c"] ["a", "b"] "t" "s"
      [[("a", .vstr "x"), ("b", .vstr "yz"), ("c", .vint 1)],
       [("a", .vstr "xy"), ("b", .vstr "z"), ("c", .vint 2)]] =
      .ok [[("a", .vstr "xy"), ("b", .vstr "z"), ("c", .vint 2)]] ∧
    ["a", "b"].map (recordGet [("a", .vstr "x"), ("b", .vstr "yz"), ("c", .vint 1)]) ≠
      ["a", "b"].map (recordGet [("a", .vstr "xy"), ("b", .vstr "z"), ("c", .vint 2)]) := by
  exact ⟨rfl, by decide⟩

/-- C2 (amended): for every non-append-only batch in which every record
has all its primary-key fields, the prepared output contains exactly one
record per distinct composite key — the concatenation of the string
forms of the record's primary-key values, in primary-key-list order —
listed in order of first occurrence, each equal to the projection of the
last input record (in arrival order) bearing that composite key. Records
with distinct primary-key tuples are collapsed together exactly when
their concatenated key strings coincide. -/
theorem dedup_by_concatenated_key (cols pks : List String) (t sch : String)
    (records : List Record)
    (hall : ∀ r ∈ records, (primary_key_value pks r).isSome = true) :
    bulk_insert_records false cols pks t sch records =
      .ok (dedupOutput cols pks records) ∧
    (distinctFirst (records.map (keyStrD pks))).Nodup ∧
    (∀ k, k ∈ distinctFirst (records.map (keyStrD pks)) ↔
      k ∈ records.map (keyStrD pks)) ∧
    (dedupOutput cols pks records).length =
      (distinctFirst (records.map (keyStrD pks))).length :=
  ⟨bulk_insert_nonappend_char cols pks t sch records hall,
   nodup_distinctFirst _,
   fun k => mem_distinctFirst _ k,
   List.length_map _ _⟩

theorem dedup_by_concatenated_key_witness :
    (∀ r ∈ [[("a", Value.vstr "x"), ("b", Value.vstr "yz"), ("c", Value.vint 1)],
            [("a", Value.vstr "xy"), ("b", Value.vstr "z"), ("c", Value.vint 2)]],
      (primary_key_value ["a", "b"] r).isSome = true) ∧
    bulk_insert_records false ["a", "b", "c"] ["a", "b"] "t" "s"
      [[("a", .vstr "x"), ("b", .vstr "yz"), ("c", .vint 1)],
       [("a", .vstr "xy"), ("b", .vstr "z"), ("c", .vint 2)]] =
      .ok (dedupOutput ["a", "b", "c"] ["a", "b"]
        [[("a", .vstr "x"), ("b", .vstr "yz"), ("c", .vint 1)],
         [("a", .vstr "xy"), ("b", .vstr "z"), ("c", .vint 2)]]) ∧
    dedupOutput ["a", "b", "c"] ["a", "b"]
        [[("a", .vstr "x"), ("b", .vstr "yz"), ("c", .vint 1)],
         [("a", .vstr "xy"), ("b", .vstr "z"), ("c", .vint 2)]] =
      [[("a", .vstr "xy"), ("b", .vstr "z"), ("c", .vint 2)]] :=
  ⟨by decide,
   (dedup_by_concatenated_key ["a", "b", "c"] ["a", "b"] "t" "s" _ (by decide)).1,
   rfl⟩

/-- C10: in non-append-only mode, a record whose declared primary-key
field is present but bound to `None` does not raise: `str(None)`, the
string `"None"`, participates in the composite key, so such records
dedup by that key string like any others (last record wins); the
preparation fails — with the `RuntimeError` of sinks.py:161-166 — exactly
when some record lacks a primary-key field entirely. -/
theorem null_primary_key_value_accepted :
    (∀ (cols pks : List String) (t sch : String) (records : List Record),
      (∀ r ∈ records, ∀ k ∈ pks, (recordGet r k).isSome = true) →
      bulk_insert_records false cols pks t sch records =
        .ok (dedupOutput cols pks records)) ∧
    pyStr .vnull = "None" ∧
    (∀ (cols pks : List String) (t sch : String) (records : List Record),
      (∃ r ∈ records, ∃ k ∈ pks, recordGet r k = none) →
      bulk_insert_records false cols pks t sch records =
        .error (pkError t sch pks)) := by
  refine ⟨?_, rfl, ?_⟩
  · intro cols pks t sch records h
    exact bulk_insert_nonappend_char cols pks t sch records
      (fun r hr => (primary_key_value_isSome r pks).mpr (h r hr))
  · intro cols pks t sch records hmiss
    exact (missing_primary_key_raises cols pks t sch records hmiss).1

theorem null_primary_key_value_accepted_witness :
    bulk_insert_records false ["id", "v"] ["id"] "t" "s"
      [[("id", .vnull), ("v", .vint 1)], [("id", .vnull), ("v", .vint 2)]] =
      .ok (dedupOutput ["id", "v"] ["id"]
        [[("id", .vnull), ("v", .vint 1)], [("id", .vnull), ("v", .vint 2)]]) ∧
    dedupOutput ["id", "v"] ["id"]
      [[("id", .vnull), ("v", .vint 1)], [("id", .vnull), ("v", .vint 2)]] =
      [[("id", .vnull), ("v", .vint 2)]] ∧
    bulk_insert_records false ["id", "v"] ["id"] "t" "s" [[("v", .vint 3)]] =
      .error (pkError "t" "s" ["id"]) :=
  ⟨null_primary_key_value_accepted.1 ["id", "v"] ["id"] "t" "s" _ (by decide),
   rfl,
   null_primary_key_value_accepted.2.2 ["id", "v"] ["id"] "t" "s" _
     ⟨[("v", Value.vint 3)], by simp, "id", by simp, rfl⟩⟩

theorem sqlEqV_char (a b : Value) (ha : a ≠ .vnull) :
    sqlEqV a b = true ↔ b = a := by
  unfold sqlEqV
  rw [if_neg ha]
  by_cases hb : b = Value.vnull
  · subst hb
    simp only [if_pos rfl]
    constructor
    · intro h
      simp at h
    · intro h
      exact absurd h.symm ha
  · rw [if_neg hb]
    simp [eq_comm]

theorem map_eq_map_iff_forall (f g : α → β) (l : List α) :
    l.map f = l.map g ↔ ∀ x ∈ l, f x = g x := by
  constructor
  · intro h x hx
    induction l with
    | nil => simp at hx
    | cons y rest ih =>
        simp only [List.map_cons, List.cons.injEq] at h
        rcases List.mem_cons.mp hx with h1 | h1
        · subst h1; exact h.1
        · exact ih h.2 h1
  · exact List.map_congr_left

theorem rowKeyMatches_char (jk : List String) (s d : Record)
    (hnn : ∀ k ∈ jk, rowGet s k ≠ .vnull) :
    rowKeyMatches jk s d = true ↔ keyTuple jk d = keyTuple jk s := by
  unfold rowKeyMatches keyTuple
  rw [List.all_eq_true, map_eq_map_iff_forall]
  constructor
  · intro h k hk
    exact (sqlEqV_char _ _ (hnn k hk)).mp (h k hk)
  · intro h k hk
    exact (sqlEqV_char _ _ (hnn k hk)).mpr (h k hk)

theorem lookup_eq_none_iff (r : Record) (k : String) :
    r.lookup k = none ↔ k ∉ rowKeys r := by
  induction r with
  | nil => simp [rowKeys]
  | cons p rest ih =>
      obtain ⟨k1, v1⟩ := p
      by_cases hk : k = k1
      · subst hk
        simp [List.lookup, rowKeys]
      · have hbeq : (k == k1) = false := beq_eq_false_iff_ne.mpr hk
        simp only [List.lookup, hbeq, rowKeys, List.map_cons, List.mem_cons]
        rw [ih]
        unfold rowKeys
        simp [hk]

theorem lookup_updateRow (props : List String) (s d : Record) (k : String) :
    (updateRow props s d).lookup k =
      (d.lookup k).map (fun v => if k ∈ props then rowGet s k else v) := by
  induction d with
  | nil => rfl
  | cons p rest ih =>
      obtain ⟨k1, v1⟩ := p
      by_cases hk : k = k1
      · subst hk
        simp only [updateRow, List.map_cons, List.lookup, beq_self_eq_true]
        rfl
      · have hbeq : (k == k1) = false := beq_eq_false_iff_ne.mpr hk
        simp only [updateRow, List.map_cons, List.lookup, hbeq]
        exact ih

theorem rowGet_updateRow (props : List String) (s d : Record) (k : String)
    (hk : k ∈ rowKeys d) :
    rowGet (updateRow props s d) k =
      if k ∈ props then rowGet s k else rowGet d k := by
  have hl : (d.lookup k).isSome = true := by
    cases hl : d.lookup k with
    | none => exact absurd ((lookup_eq_none_iff d k).mp hl) (not_not_intro hk)
    | some v => rfl
  cases hlk : d.lookup k with
  | none => rw [hlk] at hl; simp at hl
  | some v =>
      unfold rowGet
      rw [lookup_updateRow, hlk]
      by_cases hp : k ∈ props <;> simp [hp, hlk, rowGet]

theorem keyTuple_updateRow (jk props : List String) (s d : Record)
    (hjk : ∀ k ∈ jk, k ∈ props) (hck : ∀ k ∈ jk, k ∈ rowKeys d) :
    keyTuple jk (updateRow props s d) = keyTuple jk s := by
  unfold keyTuple
  apply List.map_congr_left
  intro k hk
  rw [rowGet_updateRow props s d k (hck k hk), if_pos (hjk k hk)]

theorem lookup_of_mem_nodup (r : Record) (p : String × Value)
    (hnd : (rowKeys r).Nodup) (hp : p ∈ r) : r.lookup p.1 = some p.2 := by
  induction r with
  | nil => simp at hp
  | cons q rest ih =>
      rcases List.mem_cons.mp hp with h1 | h1
      · subst h1
        obtain ⟨k1, v1⟩ := p
        simp [List.lookup]
      · have hne : p.1 ≠ q.1 := by
          intro he
          have hmem : p.1 ∈ rowKeys rest := List.mem_map_of_mem Prod.fst h1
          rw [he] at hmem
          exact (List.nodup_cons.mp (by simpa [rowKeys] using hnd)).1 hmem
        obtain ⟨k1, v1⟩ := q
        have hbeq : (p.1 == k1) = false := beq_eq_false_iff_ne.mpr hne
        simp only [List.lookup, hbeq]
        exact ih (List.nodup_cons.mp (by simpa [rowKeys] using hnd)).2 h1

theorem updateRow_self (props : List String) (s : Record)
    (hnd : (rowKeys s).Nodup) : updateRow props s s = s := by
  unfold updateRow
  have : ∀ p ∈ s, (p.1, if p.1 ∈ props then rowGet s p.1 else p.2) = p := by
    intro p hp
    by_cases hm : p.1 ∈ props
    · rw [if_pos hm]
      unfold rowGet
      rw [lookup_of_mem_nodup s p hnd hp]
      simp
    · rw [if_neg hm]
  rw [List.map_congr_left this, List.map_id']

theorem updateRow_idem (props : List String) (s d : Record) :
    updateRow props s (updateRow props s d) = updateRow props s d := by
  unfold updateRow
  rw [List.map_map]
  apply List.map_congr_left
  intro p _
  by_cases hp : p.1 ∈ props <;> simp [hp]

theorem mem_insertNewRows (jk : List String) (S D : List Record) (s : Record) :
    s ∈ insertNewRows jk S D ↔
      s ∈ S ∧ ∀ d ∈ D, rowKeyMatches jk s d = false := by
  unfold insertNewRows
  rw [List.mem_filter]
  constructor
  · intro ⟨h1, h2⟩
    refine ⟨h1, fun d hd => ?_⟩
    rw [Bool.not_eq_true'] at h2
    have := List.any_eq_false.mp h2 d hd
    exact Bool.not_eq_true _ ▸ (by simpa using this)
  · intro ⟨h1, h2⟩
    refine ⟨h1, ?_⟩
    rw [Bool.not_eq_true']
    exact List.any_eq_false.mpr (fun d hd => by simp [h2 d hd])

theorem find?_unique_match (jk : List String) (d : Record) :
    ∀ S : List Record,
    S.Pairwise (fun a b => keyTuple jk a ≠ keyTuple jk b) →
    (∀ t ∈ S, ∀ k ∈ jk, rowGet t k ≠ .vnull) →
    ∀ s ∈ S, rowKeyMatches jk s d = true →
    S.find? (fun t => rowKeyMatches jk t d) = some s := by
  intro S
  induction S with
  | nil => intro _ _ s hs; simp at hs
  | cons h rest ih =>
      intro hpw hnn s hs hm
      by_cases hh : rowKeyMatches jk h d = true
      · simp only [List.find?_cons, hh]
        rcases List.mem_cons.mp hs with h1 | h1
        · rw [h1]
        · exfalso
          have htd : keyTuple jk d = keyTuple jk h :=
            (rowKeyMatches_char jk h d
              (hnn h (List.mem_cons_self h rest))).mp hh
          have hsd : keyTuple jk d = keyTuple jk s :=
            (rowKeyMatches_char jk s d
              (hnn s hs)).mp hm
          exact (List.pairwise_cons.mp hpw).1 s h1 (htd ▸ hsd)
      · have hh2 : rowKeyMatches jk h d = false := Bool.not_eq_true _ ▸ (by simpa using hh)
        simp only [List.find?_cons, hh2]
        rcases List.mem_cons.mp hs with h1 | h1
        · subst h1; exact absurd hm hh
        · exact ih (List.pairwise_cons.mp hpw).2
            (fun t ht => hnn t (List.mem_cons_of_mem h ht)) s h1 hm

theorem updStep_of_match (jk props : List String) (S : List Record) (d s : Record)
    (hpw : S.Pairwise (fun a b => keyTuple jk a ≠ keyTuple jk b))
    (hnn : ∀ t ∈ S, ∀ k ∈ jk, rowGet t k ≠ .vnull)
    (hs : s ∈ S) (hm : rowKeyMatches jk s d = true) :
    updStep jk props S d = updateRow props s d := by
  unfold updStep
  rw [find?_unique_match jk d S hpw hnn s hs hm]

theorem updStep_of_no_match (jk props : List String) (S : List Record) (d : Record)
    (h : ∀ s ∈ S, rowKeyMatches jk s d = false) :
    updStep jk props S d = d := by
  unfold updStep
  have hfind : S.find? (fun t => rowKeyMatches jk t d) = none :=
    List.find?_eq_none.mpr (fun t ht => by simp [h t ht])
  rw [hfind]

theorem upsert_nonappend_eq (jk props : List String) (S D : List Record) :
    upsert false jk props S D =
      (D ++ insertNewRows jk S D).map (updStep jk props S) := by
  unfold upsert updateExisting
  rw [if_neg (by simp)]

theorem mem_match_after_merge (jk props : List String) (S D : List Record)
    (hjk : ∀ k ∈ jk, k ∈ props)
    (hpw : S.Pairwise (fun a b => keyTuple jk a ≠ keyTuple jk b))
    (hnn : ∀ s ∈ S, ∀ k ∈ jk, rowGet s k ≠ .vnull)
    (hSnd : ∀ s ∈ S, (rowKeys s).Nodup)
    (hDck : ∀ d ∈ D, ∀ k ∈ jk, k ∈ rowKeys d) :
    ∀ s ∈ S, ∃ r ∈ upsert false jk props S D, rowKeyMatches jk s r = true := by
  intro s hs
  by_cases hex : ∃ d ∈ D, rowKeyMatches jk s d = true
  · rcases hex with ⟨d, hd, hm⟩
    refine ⟨updateRow props s d, ?_, ?_⟩
    · rw [upsert_nonappend_eq]
      have hstep : updStep jk props S d = updateRow props s d :=
        updStep_of_match jk props S d s hpw hnn hs hm
      exact hstep ▸ List.mem_map_of_mem _ (List.mem_append_left _ hd)
    · rw [rowKeyMatches_char jk s _ (hnn s hs)]
      exact keyTuple_updateRow jk props s d hjk (hDck d hd)
  · push_neg at hex
    have hfalse : ∀ d ∈ D, rowKeyMatches jk s d = false := by
      intro d hd
      cases hb : rowKeyMatches jk s d with
      | false => rfl
      | true => exact absurd hb (hex d hd)
    have hmemN : s ∈ insertNewRows jk S D := (mem_insertNewRows jk S D s).mpr ⟨hs, hfalse⟩
    have hself : rowKeyMatches jk s s = true :=
      (rowKeyMatches_char jk s s (hnn s hs)).mpr rfl
    have hstep : updStep jk props S s = s := by
      rw [updStep_of_match jk props S s s hpw hnn hs hself]
      exact updateRow_self props s (hSnd s hs)
    refine ⟨s, ?_, hself⟩
    rw [upsert_nonappend_eq]
    exact hstep ▸ List.mem_map_of_mem _ (List.mem_append_right D hmemN)

theorem updStep_fixpoint (jk props : List String) (S D : List Record)
    (hjk : ∀ k ∈ jk, k ∈ props)
    (hpw : S.Pairwise (fun a b => keyTuple jk a ≠ keyTuple jk b))
    (hnn : ∀ s ∈ S, ∀ k ∈ jk, rowGet s k ≠ .vnull)
    (hSck : ∀ s ∈ S, ∀ k ∈ jk, k ∈ rowKeys s)
    (hDck : ∀ d ∈ D, ∀ k ∈ jk, k ∈ rowKeys d) :
    ∀ r ∈ upsert false jk props S D, updStep jk props S r = r := by
  intro r hr
  rw [upsert_nonappend_eq] at hr
  rcases List.mem_map.mp hr with ⟨x, hx, hrx⟩
  have hxck : ∀ k ∈ jk, k ∈ rowKeys x := by
    rcases List.mem_append.mp hx with hxD | hxN
    · exact hDck x hxD
    · exact hSck x ((mem_insertNewRows jk S D x).mp hxN).1
  cases hfind : S.find? (fun t => rowKeyMatches jk t x) with
  | none =>
      have hnomatch : ∀ t ∈ S, rowKeyMatches jk t x = false := by
        intro t ht
        have := List.find?_eq_none.mp hfind t ht
        simpa using this
      have hxr : r = x := by
        rw [← hrx]
        exact updStep_of_no_match jk props S x hnomatch
      rw [hxr]
      exact updStep_of_no_match jk props S x hnomatch
  | some t =>
      have ht : t ∈ S := List.mem_of_find?_eq_some hfind
      have htm : rowKeyMatches jk t x = true := by
        have := List.find?_some hfind
        simpa using this
      have hrx' : r = updateRow props t x := by
        rw [← hrx]
        unfold updStep
        rw [hfind]
      have htuple : keyTuple jk r = keyTuple jk t := by
        rw [hrx']
        exact keyTuple_updateRow jk props t x hjk hxck
      have htr : rowKeyMatches jk t r = true :=
        (rowKeyMatches_char jk t r (hnn t ht)).mpr htuple
      rw [updStep_of_match jk props S r t hpw hnn ht htr, hrx', updateRow_idem]

/-- C3: upsert idempotence. The hypotheses record, besides the claim's
"at most one staging row per primary-key tuple" (`hpw`), the structural
invariants of the tables the merge runs on: the join keys are declared
schema properties; staging key values are non-NULL and each row lists
its (distinct) columns including the keys, as the staging table's
primary-key constraint and destination-mirroring schema guarantee; and
destination rows carry the key columns. Under these, running the
two-statement merge twice with the same staging contents leaves the
destination exactly as after the first run: the insert-new predicate
excludes the now-present keys and the update overwrites with the same
values. -/
theorem upsert_idempotent (jk props : List String) (S D : List Record)
    (hjk : ∀ k ∈ jk, k ∈ props)
    (hpw : S.Pairwise (fun a b => keyTuple jk a ≠ keyTuple jk b))
    (hnn : ∀ s ∈ S, ∀ k ∈ jk, rowGet s k ≠ .vnull)
    (hSnd : ∀ s ∈ S, (rowKeys s).Nodup)
    (hSck : ∀ s ∈ S, ∀ k ∈ jk, k ∈ rowKeys s)
    (hDck : ∀ d ∈ D, ∀ k ∈ jk, k ∈ rowKeys d) :
    upsert false jk props S (upsert false jk props S D) =
      upsert false jk props S D := by
  have hins : insertNewRows jk S (upsert false jk props S D) = [] := by
    unfold insertNewRows
    rw [List.filter_eq_nil_iff]
    intro s hs
    rcases mem_match_after_merge jk props S D hjk hpw hnn hSnd hDck s hs with
      ⟨r, hr, hm⟩
    have hany : (upsert false jk props S D).any
        (fun drow => rowKeyMatches jk s drow) = true :=
      List.any_eq_true.mpr ⟨r, hr, hm⟩
    simp [hany]
  have hfix : ∀ r ∈ upsert false jk props S D, updStep jk props S r = r :=
    updStep_fixpoint jk props S D hjk hpw hnn hSck hDck
  conv_lhs => rw [upsert_nonappend_eq]
  rw [hins, List.append_nil]
  rw [List.map_congr_left hfix, List.map_id']

/-- C4: insert/update partition. Same structural hypotheses as the
idempotence theorem, plus: destination rows carry every declared schema
column. After one merge, (a) every staging row whose key tuple is absent
from the pre-merge destination is itself present in the post-merge
destination, and (b) for every pre-merge destination row matching a
staging row's key tuple, the overwritten row — equal to that destination
row with all declared schema columns (primary keys included, as no-ops)
set to the staging row's values — is present post-merge. -/
theorem upsert_insert_update_partition (jk props : List String) (S D : List Record)
    (hpw : S.Pairwise (fun a b => keyTuple jk a ≠ keyTuple jk b))
    (hnn : ∀ s ∈ S, ∀ k ∈ jk, rowGet s k ≠ .vnull)
    (hSnd : ∀ s ∈ S, (rowKeys s).Nodup)
    (hDpc : ∀ d ∈ D, ∀ c ∈ props, c ∈ rowKeys d) :
    (∀ s ∈ S, (∀ d ∈ D, keyTuple jk d ≠ keyTuple jk s) →
      s ∈ upsert false jk props S D) ∧
    (∀ d ∈ D, ∀ s ∈ S, keyTuple jk d = keyTuple jk s →
      updateRow props s d ∈ upsert false jk props S D ∧
      ∀ c ∈ props, rowGet (updateRow props s d) c = rowGet s c) := by
  constructor
  · intro s hs htuple
    have hfalse : ∀ d ∈ D, rowKeyMatches jk s d = false := by
      intro d hd
      cases hb : rowKeyMatches jk s d with
      | false => rfl
      | true =>
          exact absurd ((rowKeyMatches_char jk s d (hnn s hs)).mp hb) (htuple d hd)
    have hmemN : s ∈ insertNewRows jk S D := (mem_insertNewRows jk S D s).mpr ⟨hs, hfalse⟩
    have hself : rowKeyMatches jk s s = true :=
      (rowKeyMatches_char jk s s (hnn s hs)).mpr rfl
    have hstep : updStep jk props S s = s := by
      rw [updStep_of_match jk props S s s hpw hnn hs hself]
      exact updateRow_self props s (hSnd s hs)
    rw [upsert_nonappend_eq]
    exact hstep ▸ List.mem_map_of_mem _ (List.mem_append_right D hmemN)
  · intro d hd s hs htuple
    have hm : rowKeyMatches jk s d = true :=
      (rowKeyMatches_char jk s d (hnn s hs)).mpr htuple
    constructor
    · rw [upsert_nonappend_eq]
      have hstep : updStep jk props S d = updateRow props s d :=
        updStep_of_match jk props S d s hpw hnn hs hm
      exact hstep ▸ List.mem_map_of_mem _ (List.mem_append_left _ hd)
    · intro c hc
      rw [rowGet_updateRow props s d c (hDpc d hd c hc), if_pos hc]

theorem upsert_idempotent_witness :
    ((∀ k ∈ ["id"], k ∈ ["id", "v"]) ∧
     ([[("id", Value.vint 1), ("v", Value.vstr "n1")],
       [("id", Value.vint 3), ("v", Value.vstr "n3")]] : List Record).Pairwise
        (fun a b => keyTuple ["id"] a ≠ keyTuple ["id"] b) ∧
     (∀ s ∈ ([[("id", Value.vint 1), ("v", Value.vstr "n1")],
       [("id", Value.vint 3), ("v", Value.vstr "n3")]] : List Record),
        ∀ k ∈ ["id"], rowGet s k ≠ .vnull) ∧
     (∀ s ∈ ([[("id", Value.vint 1), ("v", Value.vstr "n1")],
       [("id", Value.vint 3), ("v", Value.vstr "n3")]] : List Record),
        (rowKeys s).Nodup) ∧
     (∀ s ∈ ([[("id", Value.vint 1), ("v", Value.vstr "n1")],
       [("id", Value.vint 3), ("v", Value.vstr "n3")]] : List Record),
        ∀ k ∈ ["id"], k ∈ rowKeys s) ∧
     (∀ d ∈ ([[("id", Value.vint 1), ("v", Value.vstr "o1")],
       [("id", Value.vint 2), ("v", Value.vstr "o2")]] : List Record),
        ∀ k ∈ ["id"], k ∈ rowKeys d)) ∧
    upsert false ["id"] ["id", "v"]
      [[("id", .vint 1), ("v", .vstr "n1")], [("id", .vint 3), ("v", .vstr "n3")]]
      (upsert false ["id"] ["id", "v"]
        [[("id", .vint 1), ("v", .vstr "n1")], [("id", .vint 3), ("v", .vstr "n3")]]
        [[("id", .vint 1), ("v", .vstr "o1")], [("id", .vint 2), ("v", .vstr "o2")]]) =
      upsert false ["id"] ["id", "v"]
        [[("id", .vint 1), ("v", .vstr "n1")], [("id", .vint 3), ("v", .vstr "n3")]]
        [[("id", .vint 1), ("v", .vstr "o1")], [("id", .vint 2), ("v", .vstr "o2")]] :=
  ⟨⟨by decide, by decide, by decide, by decide, by decide, by decide⟩,
   upsert_idempotent ["id"] ["id", "v"] _ _
     (by decide) (by decide) (by decide) (by decide) (by decide) (by decide)⟩

theorem upsert_insert_update_partition_witness :
    (([[("id", Value.vint 1), ("v", Value.vstr "n1")],
       [("id", Value.vint 3), ("v", Value.vstr "n3")]] : List Record).Pairwise
        (fun a b => keyTuple ["id"] a ≠ keyTuple ["id"] b) ∧
     (∀ s ∈ ([[("id", Value.vint 1), ("v", Value.vstr "n1")],
       [("id", Value.vint 3), ("v", Value.vstr "n3")]] : List Record),
        ∀ k ∈ ["id"], rowGet s k ≠ .vnull) ∧
     (∀ s ∈ ([[("id", Value.vint 1), ("v", Value.vstr "n1")],
       [("id", Value.vint 3), ("v", Value.vstr "n3")]] : List Record),
        (rowKeys s).Nodup) ∧
     (∀ d ∈ ([[("id", Value.vint 1), ("v", Value.vstr "o1")],
       [("id", Value.vint 2), ("v", Value.vstr "o2")]] : List Record),
        ∀ c ∈ ["id", "v"], c ∈ rowKeys d)) ∧
    ((∀ s ∈ ([[("id", Value.vint 1), ("v", Value.vstr "n1")],
       [("id", Value.vint 3), ("v", Value.vstr "n3")]] : List Record),
      (∀ d ∈ ([[("id", Value.vint 1), ("v", Value.vstr "o1")],
        [("id", Value.vint 2), ("v", Value.vstr "o2")]] : List Record),
        keyTuple ["id"] d ≠ keyTuple ["id"] s) →
      s ∈ upsert false ["id"] ["id", "v"]
        [[("id", .vint 1), ("v", .vstr "n1")], [("id", .vint 3), ("v", .vstr "n3")]]
        [[("id", .vint 1), ("v", .vstr "o1")], [("id", .vint 2), ("v", .vstr "o2")]]) ∧
     (∀ d ∈ ([[("id", Value.vint 1), ("v", Value.vstr "o1")],
       [("id", Value.vint 2), ("v", Value.vstr "o2")]] : List Record),
      ∀ s ∈ ([[("id", Value.vint 1), ("v", Value.vstr "n1")],
       [("id", Value.vint 3), ("v", Value.vstr "n3")]] : List Record),
      keyTuple ["id"] d = keyTuple ["id"] s →
      updateRow ["id", "v"] s d ∈ upsert false ["id"] ["id", "v"]
        [[("id", .vint 1), ("v", .vstr "n1")], [("id", .vint 3), ("v", .vstr "n3")]]
        [[("id", .vint 1), ("v", .vstr "o1")], [("id", .vint 2), ("v", .vstr "o2")]] ∧
      ∀ c ∈ ["id", "v"], rowGet (updateRow ["id", "v"] s d) c = rowGet s c)) :=
  ⟨⟨by decide, by decide, by decide, by decide⟩,
   upsert_insert_update_partition ["id"] ["id", "v"] _ _
     (by decide) (by decide) (by decide) (by decide)⟩
